import Mathlib

/-!
Shallow embedding of the Supervisor routing-and-execution core of the
`agents-ivi-example` repository, together with proofs about its behaviour.

The embedded code lives in
`src/lc-entertainment/app/backend/agents/supervisor_agent.py`
(classes `TaskResult`, `SupervisorAgent`) and
`src/lc-entertainment/app/backend/observability.py`
(class `ObservabilityManager`).

Modelling conventions:
* The underlying LLM call and the sub-agent invocations are external
  effects; they are passed in as explicit oracle values of type
  `Except String α` (`.error msg` models the call raising an exception
  whose `str()` is `msg`).
* Wall-clock readings, generated uuids and ISO timestamps are ambient
  nondeterminism; they are passed in as explicit parameters.
* Python floats are modelled as rationals `ℚ`: every arithmetic
  operation performed by the code (sum, division by a count) is exact
  in the model.
* Python `None` becomes `Option.none`; dictionaries with a fixed key
  shape become structures; the `agent_usage` dictionary (built by a
  first-occurrence-ordered insert/increment loop) becomes an
  association list built by the same loop.
-/

namespace Supervisor

/-- The three labels the classifier is allowed to produce
(`AgentType = Literal["map", "music", "general"]`). -/
def validLabels : List String := ["map", "music", "general"]

/-- Keys of `self.sub_agents` as built by `_init_sub_agents`. -/
def subAgentKeys : List String := ["map", "music"]

/-- The fixed placeholder used when an agent returns an empty message
list: `"(Agent未返回内容)"`. -/
def emptyAgentPlaceholder : String := "(Agent未返回内容)"

/-- Prefix of `content` on the failure path
(`f"任务执行失败: {str(e)}"`). -/
def failureText : String := "任务执行失败: "

/-- Prefix of the `ValueError` message raised for an unknown agent type
(`f"未知的Agent类型: {agent_type}"`). -/
def unknownTypeMsg (t : String) : String := "未知的Agent类型: " ++ t

/-- Python `str.lower()` (ASCII case folding, applied per character). -/
def pyLower (s : String) : String := ⟨s.data.map Char.toLower⟩

/-- Python `str.strip()` with no argument: remove leading and trailing
whitespace. -/
def pyStrip (s : String) : String :=
  ⟨((s.data.dropWhile Char.isWhitespace).reverse.dropWhile
      Char.isWhitespace).reverse⟩

/-- `response.content.strip().lower()`. -/
def pyStripLower (s : String) : String := pyLower (pyStrip s)

/-- `SupervisorAgent.analyze_intent`: the LLM reply (or the exception it
raised) is the oracle argument.  The code strips and lower-cases the
reply, keeps it if it is one of the three labels, and otherwise — or on
any exception — returns `"general"`. -/
def analyze_intent (llmReply : Except String String) : String :=
  match llmReply with
  | .error _ => "general"
  | .ok reply =>
      let agent_type := pyStripLower reply
      if agent_type ∈ validLabels then agent_type else "general"

/-- The `metadata` dictionary attached to every `TaskResult`
(`task_id`, `execution_time`, `user_input`, `trace_id`). -/
structure Metadata where
  task_id : String
  execution_time : ℚ
  user_input : String
  trace_id : String
deriving Repr, DecidableEq

/-- Class `TaskResult` of `supervisor_agent.py`. -/
structure TaskResult where
  success : Bool
  agent_type : String
  content : String
  metadata : Metadata
  error : Option String
deriving Repr, DecidableEq

/-- One entry of `self.task_history`, as built by `_record_task`
(the nested `"result"` dict is the full `TaskResult`). -/
structure TaskRecord where
  task_id : String
  timestamp : String
  user_input : String
  agent_type : String
  success : Bool
  execution_time : ℚ
  result : TaskResult
deriving Repr, DecidableEq

/-- Trim-after-append bound used by `_record_task` and by every buffer
of `ObservabilityManager`: `if len(buf) > cap: buf = buf[-cap:]`.
Python `buf[-cap:]` (with `cap ≤ len buf`) is `List.drop (len - cap)`. -/
def trimTo (cap : Nat) (l : List α) : List α :=
  if l.length > cap then l.drop (l.length - cap) else l

/-- `SupervisorAgent._record_task` restricted to its effect on
`self.task_history`: append, then trim to the most recent 100. -/
def record_task (history : List TaskRecord) (r : TaskRecord) :
    List TaskRecord :=
  trimTo 100 (history ++ [r])

/-- Python truthiness fallback `agent_type or "unknown"` applied on the
failure path, on a resolved (string) agent type: only the empty string
is falsy there. -/
def pyOrUnknown (t : String) : String := if t = "" then "unknown" else t

/-- All external behaviour and ambient nondeterminism consumed by one
`execute_task` call. -/
structure CallEnv where
  /-- Reply of `llm.invoke` on the classification prompt. -/
  classifierReply : Except String String
  /-- Reply of `llm.invoke` on the raw user input (the `general` branch). -/
  generalReply : Except String String
  /-- Behaviour of `self.sub_agents[t].invoke(...)`: the list of message
  contents of the returned `"messages"` value, or a raised exception. -/
  agentReply : String → Except String (List String)
  /-- `str(uuid.uuid4())[:8]` for the task id. -/
  task_id : String
  /-- Trace id returned by `observability.start_trace`. -/
  trace_id : String
  /-- `datetime.datetime.now().isoformat()` inside `_record_task`. -/
  timestamp : String
  /-- `time.time() - start_time`. -/
  execution_time : ℚ

/-- The agent type in scope after step 1 of `execute_task`: the explicit
argument if not `None`, otherwise the classifier's output.  (All model
exceptions arise after this point, so this is also the value the
`except` branch sees.) -/
def resolveType (explicit : Option String) (env : CallEnv) : String :=
  match explicit with
  | some t => t
  | none => analyze_intent env.classifierReply

/-- Step 2 of `execute_task` (the dispatch inside the `try` block):
produces the `result_content`, or the exception caught by the `except`
branch.  The `ValueError` raised for an unknown agent type is one of the
possible exceptions. -/
def dispatch (t : String) (env : CallEnv) : Except String String :=
  if t = "general" then
    env.generalReply
  else if t ∈ subAgentKeys then
    match env.agentReply t with
    | .error e => .error e
    | .ok messages =>
        match messages.getLast? with
        | some last_message => .ok last_message
        | none => .ok emptyAgentPlaceholder
  else
    .error (unknownTypeMsg t)

/-- `SupervisorAgent.execute_task`: returns the `TaskResult` and the new
`task_history`.  The `try/except` of the source is the `match` on
`dispatch`: every exception of the body is converted into a failed
`TaskResult`, and both branches call `_record_task` exactly once. -/
def execute_task (history : List TaskRecord) (user_input : String)
    (explicit : Option String) (env : CallEnv) :
    TaskResult × List TaskRecord :=
  let t := resolveType explicit env
  let md : Metadata :=
    ⟨env.task_id, env.execution_time, user_input, env.trace_id⟩
  match dispatch t env with
  | .ok result_content =>
      let result : TaskResult :=
        { success := true, agent_type := t, content := result_content,
          metadata := md, error := none }
      let rcd : TaskRecord :=
        ⟨env.task_id, env.timestamp, user_input, t, true,
          env.execution_time, result⟩
      (result, record_task history rcd)
  | .error e =>
      let result : TaskResult :=
        { success := false, agent_type := pyOrUnknown t,
          content := failureText ++ e, metadata := md,
          error := some e }
      let rcd : TaskRecord :=
        ⟨env.task_id, env.timestamp, user_input, t, false,
          env.execution_time, result⟩
      (result, record_task history rcd)

/-- The history record produced by one `execute_task` call; it depends
only on the call's inputs, not on the prior history. -/
def recordOf (user_input : String) (explicit : Option String)
    (env : CallEnv) : TaskRecord :=
  let t := resolveType explicit env
  let md : Metadata :=
    ⟨env.task_id, env.execution_time, user_input, env.trace_id⟩
  match dispatch t env with
  | .ok result_content =>
      ⟨env.task_id, env.timestamp, user_input, t, true,
        env.execution_time,
        { success := true, agent_type := t, content := result_content,
          metadata := md, error := none }⟩
  | .error e =>
      ⟨env.task_id, env.timestamp, user_input, t, false,
        env.execution_time,
        { success := false, agent_type := pyOrUnknown t,
          content := failureText ++ e, metadata := md,
          error := some e }⟩

/-- `SupervisorAgent.get_task_history`: Python `self.task_history[-limit:]`.
For `limit = 0` the slice `[-0:]` is `[0:]`, i.e. the whole list; for
positive `limit` it is the last `min limit len` elements. -/
def get_task_history (history : List TaskRecord) (limit : Nat) :
    List TaskRecord :=
  if limit = 0 then history else history.drop (history.length - limit)

/-- Result shape of `SupervisorAgent.get_statistics` (`agent_usage` is
an insertion-ordered dictionary, modelled as an association list). -/
structure Stats where
  total_tasks : Nat
  success_rate : ℚ
  avg_execution_time : ℚ
  agent_usage : List (String × Nat)
deriving Repr, DecidableEq

/-- One iteration of the `agent_usage` loop of `get_statistics`:
`if agent_type not in agent_usage: agent_usage[agent_type] = 0` then
`agent_usage[agent_type] += 1`. -/
def bumpUsage (acc : List (String × Nat)) (t : String) :
    List (String × Nat) :=
  if acc.any (fun p => p.1 = t) then
    acc.map (fun p => if p.1 = t then (p.1, p.2 + 1) else p)
  else
    acc ++ [(t, 1)]

/-- The full `agent_usage` dictionary of `get_statistics`. -/
def agentUsage (history : List TaskRecord) : List (String × Nat) :=
  history.foldl (fun acc r => bumpUsage acc r.agent_type) []

/-- `SupervisorAgent.get_statistics`. -/
def get_statistics (history : List TaskRecord) : Stats :=
  if history.isEmpty then
    { total_tasks := 0, success_rate := 0, avg_execution_time := 0,
      agent_usage := [] }
  else
    let total := history.length
    let success_count := (history.filter (fun r => r.success)).length
    { total_tasks := total
      success_rate := (success_count : ℚ) / (total : ℚ)
      avg_execution_time :=
        (history.map (fun r => r.execution_time)).sum / (total : ℚ)
      agent_usage := agentUsage history }

/-- One `execute_task` call with all its inputs and ambient
nondeterminism. -/
structure Call where
  user_input : String
  explicit : Option String
  env : CallEnv

/-- The record a call appends (independent of the history it runs on). -/
def recordOfCall (c : Call) : TaskRecord :=
  recordOf c.user_input c.explicit c.env

/-- The task history after a sequence of `execute_task` calls on a fresh
supervisor. -/
def run_tasks (calls : List Call) : List TaskRecord :=
  calls.foldl
    (fun history c => (execute_task history c.user_input c.explicit c.env).2)
    []

/-- A concrete, fully benign environment used to instantiate the
hypothesis-bearing theorems. -/
def sampleEnv : CallEnv :=
  { classifierReply := .ok "map"
    generalReply := .ok "hello"
    agentReply := fun _ => .ok ["done"]
    task_id := "t0001"
    trace_id := "tr01"
    timestamp := "2026-01-01T00:00:00"
    execution_time := 1 }

/-- A concrete `TaskResult` used in witnesses. -/
def sampleResult : TaskResult :=
  { success := true, agent_type := "general", content := "ok",
    metadata := ⟨"t0001", 1, "hi", "tr01"⟩, error := none }

/-- A concrete history record used in witnesses. -/
def sampleRecord : TaskRecord :=
  ⟨"t0001", "2026-01-01T00:00:00", "hi", "general", true, 1, sampleResult⟩

end Supervisor

namespace Obs

open Supervisor (trimTo)

/-- One entry of `ObservabilityManager.traces`
(`{trace_id, span_name, timestamp, metadata}`; the open `metadata`
dictionary is kept as string pairs). -/
structure Span where
  trace_id : String
  span_name : String
  timestamp : String
  metadata : List (String × String)
deriving Repr, DecidableEq

/-- One entry of `ObservabilityManager.events`
(`{event_type, timestamp, data}`). -/
structure Event where
  event_type : String
  timestamp : String
  data : List (String × String)
deriving Repr, DecidableEq

/-- `self.max_traces = 1000`. -/
def max_traces : Nat := 1000

/-- `self.max_events = 1000`. -/
def max_events : Nat := 1000

/-- Per-metric cap (`if len(self.metrics[metric_name]) > 1000`). -/
def max_metric_points : Nat := 1000

/-- The mutable buffers of `ObservabilityManager`: `self.traces`,
`self.events` and the `self.metrics` dictionary (total function with
finite support; a name never recorded maps to `[]`, matching
`self.metrics.get(name, [])`). -/
structure ObsState where
  traces : List Span
  events : List Event
  metrics : String → List ℚ

/-- Fresh state built by `__init__`. -/
def initState : ObsState := ⟨[], [], fun _ => []⟩

/-- One call into the store: `start_trace`, `trace`, `end_trace`,
`record_event` or `record_metric`, with all ambient nondeterminism
(generated trace ids, timestamps) inlined as fields. -/
inductive ObsOp where
  | startTrace (span_name trace_id timestamp : String)
      (metadata : List (String × String))
  | midTrace (trace_id span_name timestamp : String)
      (metadata : List (String × String))
  | endTrace (trace_id timestamp : String)
      (metadata : List (String × String))
  | recordEvent (event_type timestamp : String)
      (data : List (String × String))
  | recordMetric (metric_name : String) (value : ℚ)
deriving Repr

/-- The span appended by an op, if any (`start_trace` appends
`f"{span_name}.start"`, `end_trace` appends the literal `"end"`). -/
def spanOf : ObsOp → Option Span
  | .startTrace name tid ts md => some ⟨tid, name ++ ".start", ts, md⟩
  | .midTrace tid name ts md => some ⟨tid, name, ts, md⟩
  | .endTrace tid ts md => some ⟨tid, "end", ts, md⟩
  | _ => none

/-- The event appended by an op, if any. -/
def eventOf : ObsOp → Option Event
  | .recordEvent ty ts d => some ⟨ty, ts, d⟩
  | _ => none

/-- The sample an op appends to the series `name`, if any. -/
def sampleOf (name : String) : ObsOp → Option ℚ
  | .recordMetric m v => if m = name then some v else none
  | _ => none

/-- One call to the corresponding `ObservabilityManager` method: append
to the relevant buffer, then trim it to its cap. -/
def step (s : ObsState) (op : ObsOp) : ObsState :=
  match op with
  | .startTrace name tid ts md =>
      { s with traces :=
          trimTo max_traces (s.traces ++ [⟨tid, name ++ ".start", ts, md⟩]) }
  | .midTrace tid name ts md =>
      { s with traces :=
          trimTo max_traces (s.traces ++ [⟨tid, name, ts, md⟩]) }
  | .endTrace tid ts md =>
      { s with traces :=
          trimTo max_traces (s.traces ++ [⟨tid, "end", ts, md⟩]) }
  | .recordEvent ty ts d =>
      { s with events :=
          trimTo max_events (s.events ++ [⟨ty, ts, d⟩]) }
  | .recordMetric name v =>
      { s with metrics := fun n =>
          if n = name then trimTo max_metric_points (s.metrics n ++ [v])
          else s.metrics n }

/-- The state after a whole call sequence, starting from a fresh store. -/
def run (ops : List ObsOp) : ObsState := ops.foldl step initState

/-- The unbounded sequence of spans a call sequence appends. -/
def allSpans (ops : List ObsOp) : List Span := ops.filterMap spanOf

/-- The unbounded sequence of events a call sequence appends. -/
def allEvents (ops : List ObsOp) : List Event := ops.filterMap eventOf

/-- The unbounded sequence of samples a call sequence appends to the
series `name`. -/
def allSamples (name : String) (ops : List ObsOp) : List ℚ :=
  ops.filterMap (sampleOf name)

end Obs

namespace Supervisor

theorem trimTo_eq_drop (cap : Nat) (l : List α) :
    trimTo cap l = l.drop (l.length - cap) := by
  unfold trimTo
  split
  · rfl
  · have h0 : l.length - cap = 0 := by omega
    rw [h0, List.drop_zero]

theorem length_trimTo (cap : Nat) (l : List α) :
    (trimTo cap l).length = min l.length cap := by
  rw [trimTo_eq_drop, List.length_drop]
  omega

/-- Trimming, appending, then trimming again is the same as trimming the
full appended sequence: the cap only ever discards the oldest entries. -/
theorem trimTo_trimTo_append (cap : Nat) (l m : List α) :
    trimTo cap (trimTo cap l ++ m) = trimTo cap (l ++ m) := by
  simp only [trimTo_eq_drop]
  have hd : l.length - cap ≤ l.length := Nat.sub_le _ _
  rw [← List.drop_append_of_le_length hd, List.drop_drop]
  congr 1
  simp only [List.length_drop, List.length_append]
  omega

theorem record_task_eq (history : List TaskRecord) (r : TaskRecord) :
    record_task history r = trimTo 100 (history ++ [r]) := rfl

theorem foldl_record_task (rs : List TaskRecord) (h : List TaskRecord) :
    rs.foldl record_task (trimTo 100 h) = trimTo 100 (h ++ rs) := by
  induction rs generalizing h with
  | nil => simp
  | cons r rs ih =>
      have hstep : record_task (trimTo 100 h) r = trimTo 100 (h ++ [r]) :=
        trimTo_trimTo_append 100 h [r]
      calc (r :: rs).foldl record_task (trimTo 100 h)
          = rs.foldl record_task (trimTo 100 (h ++ [r])) := by
            rw [List.foldl_cons, hstep]
        _ = trimTo 100 ((h ++ [r]) ++ rs) := ih (h ++ [r])
        _ = trimTo 100 (h ++ r :: rs) := by simp

/-- `execute_task`'s effect on the history is exactly one `_record_task`
call with the record `recordOf`. -/
theorem execute_task_snd (history : List TaskRecord) (user_input : String)
    (explicit : Option String) (env : CallEnv) :
    (execute_task history user_input explicit env).2 =
      record_task history (recordOf user_input explicit env) := by
  unfold execute_task recordOf
  cases hd : dispatch (resolveType explicit env) env <;> simp [hd]

/-- Whatever the LLM does, `analyze_intent` produces one of the three
valid labels. -/
theorem analyze_intent_mem_validLabels (r : Except String String) :
    analyze_intent r ∈ validLabels := by
  unfold analyze_intent
  cases r with
  | error e => simp [validLabels]
  | ok reply =>
      simp only []
      by_cases hm : pyStripLower reply ∈ validLabels
      · rw [if_pos hm]; exact hm
      · rw [if_neg hm]; simp [validLabels]

/-- C1: for every call to `execute_task` — any input, any explicit agent
type, whether the dispatched call succeeds or raises — exactly one
`TaskResult` is returned (the function is total on all oracle
behaviours) and exactly one record is appended to the task history: the
new history is the old one with exactly the record of this task appended
(then trimmed to the 100-record cap), and its length grows by exactly
one below the cap. -/
theorem execute_task_one_result_one_record (history : List TaskRecord)
    (user_input : String) (explicit : Option String) (env : CallEnv) :
    ∃ r : TaskRecord,
      (execute_task history user_input explicit env).2 =
        trimTo 100 (history ++ [r]) ∧
      r = recordOf user_input explicit env ∧
      r.task_id = env.task_id ∧
      r.success = (execute_task history user_input explicit env).1.success ∧
      (execute_task history user_input explicit env).2.length =
        min (history.length + 1) 100 := by
  refine ⟨recordOf user_input explicit env,
    by rw [execute_task_snd]; rfl, rfl, ?_, ?_, ?_⟩
  · unfold recordOf
    cases hd : dispatch (resolveType explicit env) env <;> simp [hd]
  · unfold execute_task recordOf
    cases hd : dispatch (resolveType explicit env) env <;> simp [hd]
  · rw [execute_task_snd, record_task_eq, length_trimTo]
    simp [Nat.min_comm]

/-- C2: the `error` field of the returned `TaskResult` is non-null
exactly when `success` is false (`error := str(e)` on the `except` path,
`error := None` on the success path). -/
theorem execute_task_error_iff_failure (history : List TaskRecord)
    (user_input : String) (explicit : Option String) (env : CallEnv) :
    (execute_task history user_input explicit env).1.error ≠ none ↔
      (execute_task history user_input explicit env).1.success = false := by
  unfold execute_task
  cases hd : dispatch (resolveType explicit env) env <;> simp [hd]

/-- C7: `analyze_intent` always lands in {map, music, general}: a raised
LLM call and an unrecognized reply both collapse to `"general"` (never
an error), and a valid label survives stripping and lower-casing. -/
theorem analyze_intent_closed_set :
    (∀ r : Except String String, analyze_intent r ∈ validLabels) ∧
    (∀ e : String, analyze_intent (.error e) = "general") ∧
    (∀ s : String, pyStripLower s ∉ validLabels →
      analyze_intent (.ok s) = "general") ∧
    (∀ s : String, pyStripLower s ∈ validLabels →
      analyze_intent (.ok s) = pyStripLower s) := by
  refine ⟨analyze_intent_mem_validLabels, fun e => rfl, ?_, ?_⟩
  · intro s hs
    unfold analyze_intent
    simp [hs]
  · intro s hs
    unfold analyze_intent
    simp [hs]

/-- Witness for C7 at concrete replies: a raised call, a garbage reply,
and a valid label in odd case with surrounding whitespace. -/
theorem analyze_intent_closed_set_witness :
    analyze_intent (.ok " MAP ") ∈ validLabels ∧
    analyze_intent (.error "boom") = "general" ∧
    (pyStripLower "banana" ∉ validLabels ∧
      analyze_intent (.ok "banana") = "general") ∧
    (pyStripLower " MAP " ∈ validLabels ∧
      analyze_intent (.ok " MAP ") = pyStripLower " MAP ") :=
  ⟨analyze_intent_closed_set.1 (.ok " MAP "),
   analyze_intent_closed_set.2.1 "boom",
   ⟨by decide, analyze_intent_closed_set.2.2.1 "banana" (by decide)⟩,
   ⟨by decide, analyze_intent_closed_set.2.2.2 " MAP " (by decide)⟩⟩

/-- On the failure path `dispatch` produced by an explicit label outside
{map, music, general}, the raised `ValueError` carries the invalid-type
message. -/
theorem dispatch_invalid_label (t : String) (env : CallEnv)
    (ht : t ∉ validLabels) :
    dispatch t env = .error (unknownTypeMsg t) := by
  have hg : ¬(t = "general") := by
    intro h
    exact ht (by simp [validLabels, h])
  have hs : t ∉ subAgentKeys := by
    intro h
    apply ht
    have h2 : t = "map" ∨ t = "music" := by simpa [subAgentKeys] using h
    rcases h2 with h2 | h2 <;> simp [validLabels, h2]
  unfold dispatch
  rw [if_neg hg, if_neg hs]

/-- Counterexample to C3: with the explicit agent type `"weather"` (a
label outside the known set) and a dispatch failure, the returned
`TaskResult.agent_type` is `"weather"` — the code echoes the invalid
label (`agent_type or "unknown"`), so the field is not confined to
{map, music, general, unknown}. -/
theorem execute_task_agent_type_counterexample :
    (execute_task [] "hi" (some "weather") sampleEnv).1.agent_type ∉
      (["map", "music", "general", "unknown"] : List String) := by
  decide

/-- C3 (amended): the result's `agent_type` lands in the closed label
set whenever the explicit argument is absent or itself a known label;
when an explicit label outside the known set is supplied, the failed
result's `agent_type` echoes that label, except that the empty label
becomes `"unknown"` (Python `agent_type or "unknown"`). -/
theorem execute_task_agent_type_amended (history : List TaskRecord)
    (user_input : String) (env : CallEnv) :
    (∀ explicit : Option String,
      (explicit = none ∨ ∃ t ∈ validLabels, explicit = some t) →
      (execute_task history user_input explicit env).1.agent_type ∈
        validLabels) ∧
    (∀ t : String, t ∉ validLabels →
      (execute_task history user_input (some t) env).1.agent_type =
        pyOrUnknown t) := by
  constructor
  · intro explicit hx
    have hmem : resolveType explicit env ∈ validLabels := by
      rcases hx with h | ⟨t, ht, h⟩
      · rw [h]; exact analyze_intent_mem_validLabels env.classifierReply
      · rw [h]; exact ht
    have hne : resolveType explicit env ≠ "" := by
      intro h0
      rw [h0] at hmem
      simp [validLabels] at hmem
    unfold execute_task
    cases hd : dispatch (resolveType explicit env) env with
    | ok c => simpa [hd] using hmem
    | error e =>
        simp only [hd]
        rw [show pyOrUnknown (resolveType explicit env) =
            resolveType explicit env from if_neg hne]
        exact hmem
  · intro t ht
    have hd : dispatch t env = .error (unknownTypeMsg t) :=
      dispatch_invalid_label t env ht
    simp [execute_task, resolveType, hd]

/-- Witness for the amended C3 at concrete calls: an omitted explicit
type stays in the closed set, and the out-of-set label `"weather"` is
echoed back. -/
theorem execute_task_agent_type_amended_witness :
    ((none = (none : Option String) ∨
        ∃ t ∈ validLabels, (none : Option String) = some t) ∧
      (execute_task [] "hi" none sampleEnv).1.agent_type ∈ validLabels) ∧
    ("weather" ∉ validLabels ∧
      (execute_task [] "hi" (some "weather") sampleEnv).1.agent_type =
        pyOrUnknown "weather") :=
  ⟨⟨Or.inl rfl,
    (execute_task_agent_type_amended [] "hi" sampleEnv).1 none (Or.inl rfl)⟩,
   ⟨by decide,
    (execute_task_agent_type_amended [] "hi" sampleEnv).2 "weather"
      (by decide)⟩⟩

/-- C4: an explicit agent type outside {map, music, general} never lets
an exception escape `execute_task`: the `ValueError` is caught and
surfaced as a failed `TaskResult` whose `error` is the invalid-type
message, and a history record is still appended. -/
theorem execute_task_invalid_type_caught (history : List TaskRecord)
    (user_input : String) (env : CallEnv) (t : String)
    (ht : t ∉ validLabels) :
    (execute_task history user_input (some t) env).1.success = false ∧
    (execute_task history user_input (some t) env).1.error =
      some (unknownTypeMsg t) ∧
    (execute_task history user_input (some t) env).1.content =
      failureText ++ unknownTypeMsg t ∧
    (execute_task history user_input (some t) env).2 =
      trimTo 100 (history ++ [recordOf user_input (some t) env]) ∧
    (execute_task history user_input (some t) env).2.length =
      min (history.length + 1) 100 := by
  have hd : dispatch (resolveType (some t) env) env =
      .error (unknownTypeMsg t) := dispatch_invalid_label t env ht
  refine ⟨?_, ?_, ?_, ?_, ?_⟩
  · simp [execute_task, hd]
  · simp [execute_task, hd]
  · simp [execute_task, hd]
  · rw [execute_task_snd]; rfl
  · rw [execute_task_snd, record_task_eq, length_trimTo]
    simp [Nat.min_comm]

/-- Witness for C4 at the concrete invalid label `"weather"`. -/
theorem execute_task_invalid_type_caught_witness :
    "weather" ∉ validLabels ∧
    ((execute_task [] "hi" (some "weather") sampleEnv).1.success = false ∧
     (execute_task [] "hi" (some "weather") sampleEnv).1.error =
       some (unknownTypeMsg "weather") ∧
     (execute_task [] "hi" (some "weather") sampleEnv).1.content =
       failureText ++ unknownTypeMsg "weather" ∧
     (execute_task [] "hi" (some "weather") sampleEnv).2 =
       trimTo 100 (([] : List TaskRecord) ++
         [recordOf "hi" (some "weather") sampleEnv]) ∧
     (execute_task [] "hi" (some "weather") sampleEnv).2.length =
       min (([] : List TaskRecord).length + 1) 100) :=
  ⟨by decide,
   execute_task_invalid_type_caught [] "hi" sampleEnv "weather" (by decide)⟩

/-- Counterexample to C8: at `limit = 0` the Python slice
`task_history[-0:]` is `task_history[0:]`, the whole list — so on a
one-record history `get_task_history` returns 1 record where the claim
(`min(limit, historyLength) = 0` records, hence at most `limit = 0`
records) demands an empty result. -/
theorem get_task_history_counterexample :
    (get_task_history [sampleRecord] 0).length = 1 ∧
    ¬((get_task_history [sampleRecord] 0).length ≤ 0) := by
  constructor
  · rfl
  · intro h
    simp [get_task_history] at h

/-- C8 (amended): for every positive `limit`, `get_task_history` returns
the `min(limit, historyLength)` most recent records, newest last, in
storage order; at `limit = 0` the slice `[-0:]` degenerates to the whole
history instead of the empty list. -/
theorem get_task_history_amended (history : List TaskRecord)
    (limit : Nat) :
    (0 < limit →
      get_task_history history limit =
        history.drop (history.length - limit) ∧
      (get_task_history history limit).length =
        min limit history.length) ∧
    (limit = 0 → get_task_history history limit = history) := by
  constructor
  · intro hpos
    have h0 : ¬(limit = 0) := by omega
    constructor
    · unfold get_task_history
      rw [if_neg h0]
    · unfold get_task_history
      rw [if_neg h0, List.length_drop]
      omega
  · intro h0
    unfold get_task_history
    rw [if_pos h0]

/-- Witness for the amended C8 on a concrete one-record history, at
`limit = 1` and `limit = 0`. -/
theorem get_task_history_amended_witness :
    (0 < 1 ∧
      (get_task_history [sampleRecord] 1 =
          [sampleRecord].drop ([sampleRecord].length - 1) ∧
        (get_task_history [sampleRecord] 1).length =
          min 1 [sampleRecord].length)) ∧
    ((0 : Nat) = 0 ∧ get_task_history [sampleRecord] 0 = [sampleRecord]) :=
  ⟨⟨by decide, (get_task_history_amended [sampleRecord] 1).1 (by decide)⟩,
   ⟨rfl, (get_task_history_amended [sampleRecord] 0).2 rfl⟩⟩

theorem run_tasks_eq_trimTo (calls : List Call) :
    run_tasks calls = trimTo 100 (calls.map recordOfCall) := by
  unfold run_tasks
  have hfun :
      (fun history c =>
          (execute_task history c.user_input c.explicit c.env).2) =
        fun history c => record_task history (recordOfCall c) := by
    funext history c
    exact execute_task_snd history c.user_input c.explicit c.env
  rw [hfun, ← List.foldl_map recordOfCall record_task calls]
  have h0 : ([] : List TaskRecord) = trimTo 100 [] := rfl
  rw [h0, foldl_record_task]
  rw [List.nil_append]

/-- C5: after any sequence of `execute_task` calls the history holds at
most 100 records, and it equals exactly the most recent records (all of
them while ≤ 100 calls were made, the last 100 — earliest dropped —
afterwards) in insertion order. -/
theorem task_history_bounded (calls : List Call) :
    (run_tasks calls).length ≤ 100 ∧
    run_tasks calls =
      (calls.map recordOfCall).drop (calls.length - 100) := by
  rw [run_tasks_eq_trimTo]
  constructor
  · rw [length_trimTo]
    omega
  · rw [trimTo_eq_drop, List.length_map]

/-- The increment loop leaves entries of other keys untouched; when the
key is absent it touches nothing. -/
theorem map_bump_of_not_mem (tl : List (String × Nat)) (t : String)
    (h : ∀ q ∈ tl, q.1 ≠ t) :
    tl.map (fun q => if q.1 = t then (q.1, q.2 + 1) else q) = tl := by
  induction tl with
  | nil => rfl
  | cons q tl ih =>
      simp only [List.map_cons]
      rw [if_neg (h q (by simp))]
      rw [ih (fun p hp => h p (by simp [hp]))]

/-- Keys of the usage dictionary after one bump. -/
theorem keys_bumpUsage (acc : List (String × Nat)) (t : String) :
    (bumpUsage acc t).map Prod.fst =
      if acc.any (fun p => p.1 = t) then acc.map Prod.fst
      else acc.map Prod.fst ++ [t] := by
  unfold bumpUsage
  split
  · rw [List.map_map]
    apply List.map_congr_left
    intro p _
    by_cases hp : p.1 = t
    · simp [hp]
    · simp [hp]
  · simp

/-- Bumping preserves distinctness of the dictionary keys. -/
theorem nodup_keys_bumpUsage (acc : List (String × Nat)) (t : String)
    (hn : (acc.map Prod.fst).Nodup) :
    ((bumpUsage acc t).map Prod.fst).Nodup := by
  rw [keys_bumpUsage]
  split
  · exact hn
  · next hany =>
      have ht : t ∉ acc.map Prod.fst := by
        intro hmem
        rcases List.mem_map.mp hmem with ⟨p, hp, hpt⟩
        apply hany
        exact List.any_eq_true.mpr ⟨p, hp, by simp [hpt]⟩
      simp [List.nodup_append, hn, ht]

/-- One bump adds exactly 1 to the sum of the counts, provided the keys
are distinct (as they are for a Python dict). -/
theorem sum_bumpUsage (acc : List (String × Nat)) (t : String)
    (hn : (acc.map Prod.fst).Nodup) :
    ((bumpUsage acc t).map (fun p => p.2)).sum =
      (acc.map (fun p => p.2)).sum + 1 := by
  induction acc with
  | nil => rfl
  | cons p tl ih =>
      rw [List.map_cons, List.nodup_cons] at hn
      by_cases hpt : p.1 = t
      · have htl : ∀ q ∈ tl, q.1 ≠ t := by
          intro q hq he
          apply hn.1
          rw [hpt, ← he]
          exact List.mem_map.mpr ⟨q, hq, rfl⟩
        have hany : (p :: tl).any (fun q => q.1 = t) = true := by
          simp [hpt]
        have hmap : tl.map (fun q => if q.1 = t then (q.1, q.2 + 1) else q) =
            tl := map_bump_of_not_mem tl t htl
        unfold bumpUsage
        rw [if_pos hany]
        simp only [List.map_cons, if_pos hpt]
        rw [hmap]
        simp only [List.map_cons, List.sum_cons]
        omega
      · unfold bumpUsage
        by_cases hany : tl.any (fun q => q.1 = t) = true
        · have hany2 : (p :: tl).any (fun q => q.1 = t) = true := by
            rcases List.any_eq_true.mp hany with ⟨q, hq, hqt⟩
            exact List.any_eq_true.mpr ⟨q, List.mem_cons_of_mem p hq, hqt⟩
          rw [if_pos hany2]
          have ihx := ih hn.2
          unfold bumpUsage at ihx
          rw [if_pos hany] at ihx
          simp only [List.map_cons, if_neg hpt, List.sum_cons]
          omega
        · have hany2 : (p :: tl).any (fun q => q.1 = t) ≠ true := by
            intro hx
            rcases List.any_eq_true.mp hx with ⟨q, hq, hqt⟩
            rcases List.mem_cons.mp hq with hq1 | hq2
            · exact hpt (by rw [← hq1] at hpt ⊢; simpa using hqt)
            · exact hany (List.any_eq_true.mpr ⟨q, hq2, hqt⟩)
          rw [if_neg hany2]
          simp only [List.map_append, List.sum_append, List.map_cons,
            List.sum_cons, List.map_nil, List.sum_nil]
          omega

/-- Folding the usage loop over a history adds the history's length to
the sum of the counts. -/
theorem sum_usage_foldl (h : List TaskRecord) :
    ∀ acc : List (String × Nat), (acc.map Prod.fst).Nodup →
      ((h.foldl (fun a r => bumpUsage a r.agent_type) acc).map
          (fun p => p.2)).sum =
        (acc.map (fun p => p.2)).sum + h.length := by
  induction h with
  | nil => intro acc _; simp
  | cons r h ih =>
      intro acc hn
      rw [List.foldl_cons]
      rw [ih (bumpUsage acc r.agent_type)
        (nodup_keys_bumpUsage acc r.agent_type hn)]
      rw [sum_bumpUsage acc r.agent_type hn]
      simp only [List.length_cons]
      omega

/-- The counts of the full `agent_usage` dictionary sum to the history
length. -/
theorem sum_agentUsage (h : List TaskRecord) :
    ((agentUsage h).map (fun p => p.2)).sum = h.length := by
  unfold agentUsage
  rw [sum_usage_foldl h [] (by simp)]
  simp

/-- C6: on an empty history `get_statistics` returns all-zero
statistics with an empty usage dictionary (no division happens), and on
any non-empty history its `success_rate` is exactly the number of
successful records divided by the total count. -/
theorem get_statistics_success_rate :
    get_statistics [] =
      { total_tasks := 0, success_rate := 0, avg_execution_time := 0,
        agent_usage := [] } ∧
    ∀ h : List TaskRecord, h ≠ [] →
      (get_statistics h).success_rate =
        ((h.filter (fun r => r.success)).length : ℚ) / (h.length : ℚ) := by
  constructor
  · rfl
  · intro h hne
    unfold get_statistics
    rw [if_neg (by simpa using hne)]

/-- Witness for C6 on the concrete one-record history. -/
theorem get_statistics_success_rate_witness :
    ([sampleRecord] ≠ []) ∧
    (get_statistics [sampleRecord]).success_rate =
      (([sampleRecord].filter (fun r => r.success)).length : ℚ) /
        (([sampleRecord] : List TaskRecord).length : ℚ) :=
  ⟨by simp, get_statistics_success_rate.2 [sampleRecord] (by simp)⟩

/-- C10: on any non-empty history the statistics are internally
consistent: the usage counts sum to `total_tasks`, `total_tasks` is the
history length, and `avg_execution_time` is the exact mean of the
stored execution times. -/
theorem get_statistics_algebra (h : List TaskRecord) (hne : h ≠ []) :
    ((get_statistics h).agent_usage.map (fun p => p.2)).sum =
      (get_statistics h).total_tasks ∧
    (get_statistics h).total_tasks = h.length ∧
    (get_statistics h).avg_execution_time =
      (h.map (fun r => r.execution_time)).sum / (h.length : ℚ) := by
  have hni : ¬(h.isEmpty = true) := by simpa using hne
  refine ⟨?_, ?_, ?_⟩
  · unfold get_statistics
    rw [if_neg hni]
    exact sum_agentUsage h
  · unfold get_statistics
    rw [if_neg hni]
  · unfold get_statistics
    rw [if_neg hni]

/-- Witness for C10 on the concrete one-record history. -/
theorem get_statistics_algebra_witness :
    ([sampleRecord] ≠ []) ∧
    (((get_statistics [sampleRecord]).agent_usage.map
        (fun p => p.2)).sum = (get_statistics [sampleRecord]).total_tasks ∧
      (get_statistics [sampleRecord]).total_tasks =
        ([sampleRecord] : List TaskRecord).length ∧
      (get_statistics [sampleRecord]).avg_execution_time =
        ([sampleRecord].map (fun r => r.execution_time)).sum /
          ((([sampleRecord] : List TaskRecord).length : ℕ) : ℚ)) :=
  ⟨by simp, get_statistics_algebra [sampleRecord] (by simp)⟩

end Supervisor

namespace Obs

open Supervisor (trimTo trimTo_eq_drop length_trimTo trimTo_trimTo_append)

theorem traces_foldl (ops : List ObsOp) :
    ∀ (s : ObsState) (tr : List Span), s.traces = trimTo max_traces tr →
      (ops.foldl step s).traces = trimTo max_traces (tr ++ allSpans ops) := by
  induction ops with
  | nil => intro s tr hs; simpa [allSpans] using hs
  | cons op ops ih =>
      intro s tr hs
      rw [List.foldl_cons]
      cases op with
      | startTrace name tid ts md =>
          have hstep : (step s (.startTrace name tid ts md)).traces =
              trimTo max_traces (tr ++ [⟨tid, name ++ ".start", ts, md⟩]) := by
            simp only [step, hs]
            exact trimTo_trimTo_append max_traces tr _
          rw [ih _ _ hstep]
          simp [allSpans, spanOf]
      | midTrace tid name ts md =>
          have hstep : (step s (.midTrace tid name ts md)).traces =
              trimTo max_traces (tr ++ [⟨tid, name, ts, md⟩]) := by
            simp only [step, hs]
            exact trimTo_trimTo_append max_traces tr _
          rw [ih _ _ hstep]
          simp [allSpans, spanOf]
      | endTrace tid ts md =>
          have hstep : (step s (.endTrace tid ts md)).traces =
              trimTo max_traces (tr ++ [⟨tid, "end", ts, md⟩]) := by
            simp only [step, hs]
            exact trimTo_trimTo_append max_traces tr _
          rw [ih _ _ hstep]
          simp [allSpans, spanOf]
      | recordEvent ty ts d =>
          have hstep : (step s (.recordEvent ty ts d)).traces =
              trimTo max_traces tr := by simp only [step]; exact hs
          rw [ih _ _ hstep]
          simp [allSpans, spanOf]
      | recordMetric name v =>
          have hstep : (step s (.recordMetric name v)).traces =
              trimTo max_traces tr := by simp only [step]; exact hs
          rw [ih _ _ hstep]
          simp [allSpans, spanOf]

theorem events_foldl (ops : List ObsOp) :
    ∀ (s : ObsState) (ev : List Event), s.events = trimTo max_events ev →
      (ops.foldl step s).events = trimTo max_events (ev ++ allEvents ops) := by
  induction ops with
  | nil => intro s ev hs; simpa [allEvents] using hs
  | cons op ops ih =>
      intro s ev hs
      rw [List.foldl_cons]
      cases op with
      | recordEvent ty ts d =>
          have hstep : (step s (.recordEvent ty ts d)).events =
              trimTo max_events (ev ++ [⟨ty, ts, d⟩]) := by
            simp only [step, hs]
            exact trimTo_trimTo_append max_events ev _
          rw [ih _ _ hstep]
          simp [allEvents, eventOf]
      | startTrace name tid ts md =>
          have hstep : (step s (.startTrace name tid ts md)).events =
              trimTo max_events ev := by simp only [step]; exact hs
          rw [ih _ _ hstep]
          simp [allEvents, eventOf]
      | midTrace tid name ts md =>
          have hstep : (step s (.midTrace tid name ts md)).events =
              trimTo max_events ev := by simp only [step]; exact hs
          rw [ih _ _ hstep]
          simp [allEvents, eventOf]
      | endTrace tid ts md =>
          have hstep : (step s (.endTrace tid ts md)).events =
              trimTo max_events ev := by simp only [step]; exact hs
          rw [ih _ _ hstep]
          simp [allEvents, eventOf]
      | recordMetric name v =>
          have hstep : (step s (.recordMetric name v)).events =
              trimTo max_events ev := by simp only [step]; exact hs
          rw [ih _ _ hstep]
          simp [allEvents, eventOf]

theorem metrics_foldl (ops : List ObsOp) (n : String) :
    ∀ (s : ObsState) (m : List ℚ),
      s.metrics n = trimTo max_metric_points m →
      (ops.foldl step s).metrics n =
        trimTo max_metric_points (m ++ allSamples n ops) := by
  induction ops with
  | nil => intro s m hs; simpa [allSamples] using hs
  | cons op ops ih =>
      intro s m hs
      rw [List.foldl_cons]
      cases op with
      | startTrace name tid ts md =>
          have hstep : (step s (.startTrace name tid ts md)).metrics n =
              trimTo max_metric_points m := by simp only [step]; exact hs
          rw [ih _ _ hstep]
          simp [allSamples, sampleOf]
      | midTrace tid name ts md =>
          have hstep : (step s (.midTrace tid name ts md)).metrics n =
              trimTo max_metric_points m := by simp only [step]; exact hs
          rw [ih _ _ hstep]
          simp [allSamples, sampleOf]
      | endTrace tid ts md =>
          have hstep : (step s (.endTrace tid ts md)).metrics n =
              trimTo max_metric_points m := by simp only [step]; exact hs
          rw [ih _ _ hstep]
          simp [allSamples, sampleOf]
      | recordEvent ty ts d =>
          have hstep : (step s (.recordEvent ty ts d)).metrics n =
              trimTo max_metric_points m := by simp only [step]; exact hs
          rw [ih _ _ hstep]
          simp [allSamples, sampleOf]
      | recordMetric name v =>
          by_cases hname : n = name
          · have hstep : (step s (.recordMetric name v)).metrics n =
                trimTo max_metric_points (m ++ [v]) := by
              simp only [step, if_pos hname, hs]
              exact trimTo_trimTo_append max_metric_points m _
            rw [ih _ _ hstep]
            have hsample : allSamples n (ObsOp.recordMetric name v :: ops) =
                v :: allSamples n ops := by
              simp [allSamples, sampleOf, hname]
            rw [hsample]
            simp
          · have hstep : (step s (.recordMetric name v)).metrics n =
                trimTo max_metric_points m := by
              simp only [step, if_neg hname]
              exact hs
            rw [ih _ _ hstep]
            have hz : sampleOf n (ObsOp.recordMetric name v) = none := by
              have hnm : ¬(name = n) := fun h => hname h.symm
              simp [sampleOf, hnm]
            have hsample : allSamples n (ObsOp.recordMetric name v :: ops) =
                allSamples n ops := by
              unfold allSamples
              rw [List.filterMap_cons, hz]
            rw [hsample]

/-- C9: after any sequence of `start_trace` / `trace` / `end_trace` /
`record_event` / `record_metric` calls, the traces buffer holds at most
1000 spans, the events buffer at most 1000 events, and every named
metric series at most 1000 samples; each buffer is exactly the suffix of
its full append sequence — oldest entries evicted first. -/
theorem obs_buffers_bounded (ops : List ObsOp) :
    (run ops).traces.length ≤ 1000 ∧
    (run ops).events.length ≤ 1000 ∧
    (∀ name, ((run ops).metrics name).length ≤ 1000) ∧
    (run ops).traces = trimTo max_traces (allSpans ops) ∧
    (run ops).events = trimTo max_events (allEvents ops) ∧
    (∀ name, (run ops).metrics name =
      trimTo max_metric_points (allSamples name ops)) := by
  have htr : (run ops).traces = trimTo max_traces (allSpans ops) := by
    have := traces_foldl ops initState [] rfl
    simpa [run] using this
  have hev : (run ops).events = trimTo max_events (allEvents ops) := by
    have := events_foldl ops initState [] rfl
    simpa [run] using this
  have hme : ∀ name, (run ops).metrics name =
      trimTo max_metric_points (allSamples name ops) := by
    intro name
    have := metrics_foldl ops name initState [] rfl
    simpa [run] using this
  refine ⟨?_, ?_, ?_, htr, hev, hme⟩
  · rw [htr, length_trimTo]
    have : max_traces = 1000 := rfl
    omega
  · rw [hev, length_trimTo]
    have : max_events = 1000 := rfl
    omega
  · intro name
    rw [hme name, length_trimTo]
    have : max_metric_points = 1000 := rfl
    omega

end Obs
